import Mathlib

/-!
Verification of the Rendery `Sources/CGLFW/shim.h` header shim.

The artifact is a C header consisting only of preprocessor directives: a
single macro definition (`GLFW_INCLUDE_NONE`) followed by one conditional
(`#if __APPLE__ ... #else ... #endif`) that selects between two lists of
`#include` directives.  We embed the file as a list of classified source
lines and give a small-step-free, total evaluator for the C preprocessor
fragment the file uses (object-like defines, includes, and a stack of
conditional-compilation flags).  Theorems about the spec claims follow.
-/

namespace Rendery

/-- A raw line of a C header file, classified by its syntactic role.
Constructors beyond the preprocessor directives (`typeDecl`, `funcDecl`,
`stmt`) classify C declarations of data structures, functions, and
runtime-executable statements; `shim.h` contains none, which several
theorems below make precise. -/
inductive CLine where
  | comment (text : String)
  | blank
  | defineDir (n body : String)
  | ifDir (cond : String)
  | elseDir
  | endifDir
  | includeDir (path : String)
  | typeDecl (text : String)
  | funcDecl (text : String)
  | stmt (text : String)
deriving DecidableEq

/-- The seventeen lines of `Sources/CGLFW/shim.h`, in source order.
Comment text is abbreviated; every directive carries its exact macro
name, condition, or header path from the source. -/
def shim_h : List CLine :=
  [ CLine.comment " Do not load OpenGL",
    CLine.defineDir "GLFW_INCLUDE_NONE" "",
    CLine.blank,
    CLine.ifDir "__APPLE__",
    CLine.comment " Include the GLFW header from the system location (e.g., /usr/local/include). The proper search",
    CLine.comment " path is provided by a .pc file parsed by Swift PM.",
    CLine.includeDir "GLFW/glfw3.h",
    CLine.blank,
    CLine.includeDir "OpenGL/gl3.h",
    CLine.includeDir "OpenGL/gl3ext.h",
    CLine.elseDir,
    CLine.includeDir "glad/glad.h",
    CLine.includeDir "GLFW/glfw3.h",
    CLine.includeDir "GL/gl.h",
    CLine.includeDir "GL/glext.h",
    CLine.endifDir,
    CLine.blank ]

/-- An effect of preprocessing: a macro definition (name and replacement
list), an included header path, or a C declaration passed through to the
compiler.  `shim.h` never emits a `declEff`. -/
inductive Effect where
  | defineEff (n body : String)
  | includeEff (path : String)
  | declEff (text : String)
deriving DecidableEq

/-- Preprocessor evaluation: `env` gives the truth value of each
conditional symbol (`#if __APPLE__` tests `env "__APPLE__"`), and the
second argument is the stack of conditional flags, one per open `#if`;
a line produces an effect exactly when every flag on the stack is true. -/
def ppLines (env : String → Bool) : List CLine → List Bool → List Effect
  | [], _ => []
  | CLine.ifDir c :: ls, st => ppLines env ls (env c :: st)
  | CLine.elseDir :: ls, st =>
      match st with
      | [] => ppLines env ls []
      | b :: rest => ppLines env ls ((!b) :: rest)
  | CLine.endifDir :: ls, st => ppLines env ls st.tail
  | CLine.defineDir n b :: ls, st =>
      if st.all (fun x => x) then Effect.defineEff n b :: ppLines env ls st
      else ppLines env ls st
  | CLine.includeDir p :: ls, st =>
      if st.all (fun x => x) then Effect.includeEff p :: ppLines env ls st
      else ppLines env ls st
  | CLine.typeDecl t :: ls, st =>
      if st.all (fun x => x) then Effect.declEff t :: ppLines env ls st
      else ppLines env ls st
  | CLine.funcDecl t :: ls, st =>
      if st.all (fun x => x) then Effect.declEff t :: ppLines env ls st
      else ppLines env ls st
  | CLine.stmt t :: ls, st =>
      if st.all (fun x => x) then Effect.declEff t :: ppLines env ls st
      else ppLines env ls st
  | CLine.comment _ :: ls, st => ppLines env ls st
  | CLine.blank :: ls, st => ppLines env ls st

/-- Preprocessing `shim.h` under a given symbol environment. -/
def preprocess (env : String → Bool) : List Effect :=
  ppLines env shim_h []

/-- The ordered header paths included by a run of the preprocessor. -/
def includesOf (es : List Effect) : List String :=
  es.filterMap fun e =>
    match e with
    | Effect.includeEff p => some p
    | _ => none

/-- The macro names defined by a run of the preprocessor. -/
def definesOf (es : List Effect) : List String :=
  es.filterMap fun e =>
    match e with
    | Effect.defineEff n _ => some n
    | _ => none

/-- The macro definitions (name and replacement list) of a run. -/
def definesFull (es : List Effect) : List (String × String) :=
  es.filterMap fun e =>
    match e with
    | Effect.defineEff n b => some (n, b)
    | _ => none

/-- The headers the Apple branch of the shim includes, in order. -/
def appleIncludes : List String :=
  ["GLFW/glfw3.h", "OpenGL/gl3.h", "OpenGL/gl3ext.h"]

/-- The headers the non-Apple branch of the shim includes, in order. -/
def otherIncludes : List String :=
  ["glad/glad.h", "GLFW/glfw3.h", "GL/gl.h", "GL/glext.h"]

/-- The full effect list of preprocessing on an Apple platform. -/
def appleEffects : List Effect :=
  Effect.defineEff "GLFW_INCLUDE_NONE" "" :: appleIncludes.map Effect.includeEff

/-- The full effect list of preprocessing on a non-Apple platform. -/
def otherEffects : List Effect :=
  Effect.defineEff "GLFW_INCLUDE_NONE" "" :: otherIncludes.map Effect.includeEff

theorem preprocess_apple (env : String → Bool) (h : env "__APPLE__" = true) :
    preprocess env = appleEffects := by
  simp [preprocess, shim_h, ppLines, h, appleEffects, appleIncludes]

theorem preprocess_other (env : String → Bool) (h : env "__APPLE__" = false) :
    preprocess env = otherEffects := by
  simp [preprocess, shim_h, ppLines, h, otherEffects, otherIncludes]

/-- C1: on every non-Apple platform (`__APPLE__` unset), preprocessing
`shim.h` includes exactly `glad/glad.h`, `GLFW/glfw3.h`, `GL/gl.h`,
`GL/glext.h`, in that order, with the GL-loader header `glad/glad.h`
first. -/
theorem c1_nonApple_includes (env : String → Bool) (h : env "__APPLE__" = false) :
    includesOf (preprocess env) =
      ["glad/glad.h", "GLFW/glfw3.h", "GL/gl.h", "GL/glext.h"] ∧
    (includesOf (preprocess env)).head? = some "glad/glad.h" := by
  rw [preprocess_other env h]
  constructor <;> rfl

theorem c1_nonApple_includes_witness :
    ((fun _ : String => false) "__APPLE__" = false) ∧
    (includesOf (preprocess (fun _ : String => false)) =
      ["glad/glad.h", "GLFW/glfw3.h", "GL/gl.h", "GL/glext.h"] ∧
    (includesOf (preprocess (fun _ : String => false))).head? = some "glad/glad.h") :=
  ⟨rfl, c1_nonApple_includes (fun _ : String => false) rfl⟩

/-- C2: on every Apple platform (`__APPLE__` set), preprocessing `shim.h`
includes exactly `GLFW/glfw3.h`, `OpenGL/gl3.h`, `OpenGL/gl3ext.h`, in
that order, and includes none of `glad/glad.h`, `GL/gl.h`,
`GL/glext.h`. -/
theorem c2_apple_includes (env : String → Bool) (h : env "__APPLE__" = true) :
    includesOf (preprocess env) =
      ["GLFW/glfw3.h", "OpenGL/gl3.h", "OpenGL/gl3ext.h"] ∧
    "glad/glad.h" ∉ includesOf (preprocess env) ∧
    "GL/gl.h" ∉ includesOf (preprocess env) ∧
    "GL/glext.h" ∉ includesOf (preprocess env) := by
  rw [preprocess_apple env h]
  refine ⟨rfl, ?_, ?_, ?_⟩ <;> decide

theorem c2_apple_includes_witness :
    ((fun _ : String => true) "__APPLE__" = true) ∧
    (includesOf (preprocess (fun _ : String => true)) =
      ["GLFW/glfw3.h", "OpenGL/gl3.h", "OpenGL/gl3ext.h"] ∧
    "glad/glad.h" ∉ includesOf (preprocess (fun _ : String => true)) ∧
    "GL/gl.h" ∉ includesOf (preprocess (fun _ : String => true)) ∧
    "GL/glext.h" ∉ includesOf (preprocess (fun _ : String => true))) :=
  ⟨rfl, c2_apple_includes (fun _ : String => true) rfl⟩

/-- The symbols made visible by a preprocessor run, given an assignment
`decl` of declared symbols to each header: every macro the run defines,
plus every symbol declared by each header the run includes. -/
def visibleSymbols (decl : String → List String) (es : List Effect) : List String :=
  es.flatMap fun e =>
    match e with
    | Effect.defineEff n _ => [n]
    | Effect.includeEff p => decl p
    | Effect.declEff _ => []

/-- Modelled from the spec: the header `GLFW/glfw3.h` is not part of this
repository; per the spec, `GLFW_INCLUDE_NONE` "suppresses GLFW's own
OpenGL header pull-in", so when that macro is not yet defined at the
point of inclusion, `glfw3.h` itself pulls in the platform OpenGL
header. -/
def glfwPullIn (glfwIncludeNoneDefined : Bool) : List String :=
  if glfwIncludeNoneDefined then [] else ["GL/gl.h"]

/-- The headers a preprocessor run ultimately includes once the modelled
pull-in behaviour of `GLFW/glfw3.h` is expanded: the run is traversed in
order, tracking which macros are defined so far. -/
def expandedIncludes (es : List Effect) : List String :=
  (es.foldl
    (fun (acc : List String × List String) e =>
      match e with
      | Effect.defineEff n _ => (n :: acc.1, acc.2)
      | Effect.includeEff p =>
          if p = "GLFW/glfw3.h" then
            (acc.1, acc.2 ++ [p] ++ glfwPullIn (acc.1.contains "GLFW_INCLUDE_NONE"))
          else (acc.1, acc.2 ++ [p])
      | Effect.declEff _ => acc)
    ([], [])).2

/-- The headers the shim lists for a platform, per the spec. -/
def listedHeaders (apple : Bool) : List String :=
  if apple then appleIncludes else otherIncludes

/-- C4: for each platform, a symbol is visible after preprocessing
`shim.h` iff it is the macro `GLFW_INCLUDE_NONE` or is declared by one
of that platform's listed headers; and no macro is defined twice and no
header ends up included twice (`GLFW_INCLUDE_NONE` guarding the GLFW
pull-in), so there are no redefinition conflicts. -/
theorem c4_symbol_union (decl : String → List String) (env : String → Bool)
    (s : String) :
    (s ∈ visibleSymbols decl (preprocess env) ↔
      s = "GLFW_INCLUDE_NONE" ∨ ∃ p ∈ listedHeaders (env "__APPLE__"), s ∈ decl p) ∧
    (definesOf (preprocess env)).Nodup ∧
    (expandedIncludes (preprocess env)).Nodup := by
  cases h : env "__APPLE__" with
  | true =>
      rw [preprocess_apple env h]
      refine ⟨?_, by decide, by decide⟩
      simp [visibleSymbols, appleEffects, appleIncludes, listedHeaders]
  | false =>
      rw [preprocess_other env h]
      refine ⟨?_, by decide, by decide⟩
      simp [visibleSymbols, otherEffects, otherIncludes, listedHeaders]

/-- Whether a line is a C declaration of a data structure, a function,
or a runtime-executable statement. -/
def isDeclLine : CLine → Bool
  | CLine.typeDecl _ => true
  | CLine.funcDecl _ => true
  | CLine.stmt _ => true
  | _ => false

/-- Whether a line is part of a conditional-compilation construct. -/
def isCondLine : CLine → Bool
  | CLine.ifDir _ => true
  | CLine.elseDir => true
  | CLine.endifDir => true
  | _ => false

/-- Whether a preprocessing effect passes a C declaration through. -/
def isDeclEffect : Effect → Bool
  | Effect.declEff _ => true
  | _ => false

/-- C5: `shim.h` is purely declarative: it contains zero data-structure
declarations, zero function declarations, and zero runtime-executable
statements, on no platform does preprocessing it emit any declaration,
and its only control flow is the single compile-time conditional on
`__APPLE__`. -/
theorem c5_purely_declarative :
    shim_h.all (fun l => !(isDeclLine l)) = true ∧
    shim_h.filter isCondLine = [CLine.ifDir "__APPLE__", CLine.elseDir, CLine.endifDir] ∧
    ∀ env : String → Bool,
      (preprocess env).all (fun e => !(isDeclEffect e)) = true := by
  refine ⟨by decide, by decide, fun env => ?_⟩
  cases h : env "__APPLE__" with
  | true => rw [preprocess_apple env h]; decide
  | false => rw [preprocess_other env h]; decide

/-- An error of the toolchain, not of the shim: the preprocessor aborts
when an included header cannot be resolved. -/
inductive ToolchainError where
  | fileNotFound (path : String)
deriving DecidableEq

/-- Preprocessing with header resolution: `avail` says which header
paths the include-search configuration can resolve; an unresolvable
`#include` in an active region aborts with a `fileNotFound` toolchain
error, which nothing in the file can catch. -/
def ppResolve (env avail : String → Bool) :
    List CLine → List Bool → Except ToolchainError (List Effect)
  | [], _ => Except.ok []
  | CLine.ifDir c :: ls, st => ppResolve env avail ls (env c :: st)
  | CLine.elseDir :: ls, st =>
      match st with
      | [] => ppResolve env avail ls []
      | b :: rest => ppResolve env avail ls ((!b) :: rest)
  | CLine.endifDir :: ls, st => ppResolve env avail ls st.tail
  | CLine.defineDir n b :: ls, st =>
      if st.all (fun x => x) then
        (ppResolve env avail ls st).map fun es => Effect.defineEff n b :: es
      else ppResolve env avail ls st
  | CLine.includeDir p :: ls, st =>
      if st.all (fun x => x) then
        if avail p then
          (ppResolve env avail ls st).map fun es => Effect.includeEff p :: es
        else Except.error (ToolchainError.fileNotFound p)
      else ppResolve env avail ls st
  | CLine.typeDecl t :: ls, st =>
      if st.all (fun x => x) then
        (ppResolve env avail ls st).map fun es => Effect.declEff t :: es
      else ppResolve env avail ls st
  | CLine.funcDecl t :: ls, st =>
      if st.all (fun x => x) then
        (ppResolve env avail ls st).map fun es => Effect.declEff t :: es
      else ppResolve env avail ls st
  | CLine.stmt t :: ls, st =>
      if st.all (fun x => x) then
        (ppResolve env avail ls st).map fun es => Effect.declEff t :: es
      else ppResolve env avail ls st
  | CLine.comment _ :: ls, st => ppResolve env avail ls st
  | CLine.blank :: ls, st => ppResolve env avail ls st

theorem ppResolve_error_from_include (env avail : String → Bool) :
    ∀ (ls : List CLine) (st : List Bool) (e : ToolchainError),
      ppResolve env avail ls st = Except.error e →
      ∃ p, CLine.includeDir p ∈ ls ∧ e = ToolchainError.fileNotFound p := by
  intro ls
  induction ls with
  | nil => intro st e h; simp [ppResolve] at h
  | cons l ls ih =>
      intro st e h
      have step : ∀ (st' : List Bool), ppResolve env avail ls st' = Except.error e →
          ∃ p, CLine.includeDir p ∈ l :: ls ∧ e = ToolchainError.fileNotFound p := by
        intro st' h'
        obtain ⟨p, hp, he⟩ := ih st' e h'
        exact ⟨p, List.mem_cons_of_mem _ hp, he⟩
      have mapErr : ∀ (x : Except ToolchainError (List Effect))
          (f : List Effect → List Effect),
          x.map f = Except.error e → x = Except.error e := by
        intro x f hx
        cases x with
        | error a => simpa [Except.map] using hx
        | ok a => simp [Except.map] at hx
      cases l with
      | comment t => exact step st (by simpa [ppResolve] using h)
      | blank => exact step st (by simpa [ppResolve] using h)
      | ifDir c => exact step _ (by simpa [ppResolve] using h)
      | elseDir =>
          cases st with
          | nil => exact step [] (by simpa [ppResolve] using h)
          | cons b rest => exact step _ (by simpa [ppResolve] using h)
      | endifDir => exact step _ (by simpa [ppResolve] using h)
      | defineDir n b =>
          rw [ppResolve] at h
          by_cases hs : st.all (fun x => x) = true
          · rw [if_pos hs] at h
            exact step st (mapErr _ _ h)
          · rw [if_neg hs] at h
            exact step st h
      | includeDir p =>
          rw [ppResolve] at h
          by_cases hs : st.all (fun x => x) = true
          · rw [if_pos hs] at h
            by_cases ha : avail p = true
            · rw [if_pos ha] at h
              exact step st (mapErr _ _ h)
            · rw [if_neg ha] at h
              refine ⟨p, List.mem_cons_self _ _, ?_⟩
              cases h
              rfl
          · rw [if_neg hs] at h
            exact step st h
      | typeDecl t =>
          rw [ppResolve] at h
          by_cases hs : st.all (fun x => x) = true
          · rw [if_pos hs] at h
            exact step st (mapErr _ _ h)
          · rw [if_neg hs] at h
            exact step st h
      | funcDecl t =>
          rw [ppResolve] at h
          by_cases hs : st.all (fun x => x) = true
          · rw [if_pos hs] at h
            exact step st (mapErr _ _ h)
          · rw [if_neg hs] at h
            exact step st h
      | stmt t =>
          rw [ppResolve] at h
          by_cases hs : st.all (fun x => x) = true
          · rw [if_pos hs] at h
            exact step st (mapErr _ _ h)
          · rw [if_neg hs] at h
            exact step st h

/-- C7: the shim defines no error codes, error types, or handlers of its
own (it contains no declarations at all), and for every environment and
every include-search configuration, the only failure preprocessing it
can produce is the toolchain's file-not-found abort at one of its own
`#include` directives. -/
theorem c7_toolchain_errors_only (env avail : String → Bool)
    (e : ToolchainError)
    (h : ppResolve env avail shim_h [] = Except.error e) :
    shim_h.all (fun l => !(isDeclLine l)) = true ∧
    ∃ p, CLine.includeDir p ∈ shim_h ∧ e = ToolchainError.fileNotFound p :=
  ⟨by decide, ppResolve_error_from_include env avail shim_h [] e h⟩

theorem c7_toolchain_errors_only_witness :
    (ppResolve (fun _ : String => false) (fun _ : String => false) shim_h [] =
      Except.error (ToolchainError.fileNotFound "glad/glad.h")) ∧
    (shim_h.all (fun l => !(isDeclLine l)) = true ∧
      ∃ p, CLine.includeDir p ∈ shim_h ∧
        ToolchainError.fileNotFound "glad/glad.h" = ToolchainError.fileNotFound p) :=
  ⟨rfl,
    c7_toolchain_errors_only (fun _ : String => false) (fun _ : String => false)
      (ToolchainError.fileNotFound "glad/glad.h") rfl⟩

/-- C3: on every platform, the very first effect of preprocessing
`shim.h` is the definition of the macro `GLFW_INCLUDE_NONE` (with an
empty replacement list), so it is defined before any `#include`
directive is processed. -/
theorem c3_define_first (env : String → Bool) :
    ∃ es, preprocess env = Effect.defineEff "GLFW_INCLUDE_NONE" "" :: es ∧
      definesOf es = [] := by
  cases h : env "__APPLE__" with
  | true =>
      exact ⟨appleIncludes.map Effect.includeEff,
        preprocess_apple env h, by decide⟩
  | false =>
      exact ⟨otherIncludes.map Effect.includeEff,
        preprocess_other env h, by decide⟩

/-- The Apple-branch headers absent from the non-Apple branch. -/
def appleOnlyHeaders : List String := ["OpenGL/gl3.h", "OpenGL/gl3ext.h"]

/-- The non-Apple-branch headers absent from the Apple branch. -/
def otherOnlyHeaders : List String := ["glad/glad.h", "GL/gl.h", "GL/glext.h"]

/-- C8: for every value of `__APPLE__`, exactly one of the two include
branches is processed: the include list is either the Apple list or the
non-Apple list, it is never empty, and it never contains a header
belonging only to the other branch. -/
theorem c8_branch_exclusive (env : String → Bool) :
    ((includesOf (preprocess env) = appleIncludes ∧
        ∀ p ∈ otherOnlyHeaders, p ∉ includesOf (preprocess env)) ∨
      (includesOf (preprocess env) = otherIncludes ∧
        ∀ p ∈ appleOnlyHeaders, p ∉ includesOf (preprocess env))) ∧
    includesOf (preprocess env) ≠ [] := by
  cases h : env "__APPLE__" with
  | true =>
      rw [preprocess_apple env h]
      exact ⟨Or.inl ⟨by decide, by decide⟩, by decide⟩
  | false =>
      rw [preprocess_other env h]
      exact ⟨Or.inr ⟨by decide, by decide⟩, by decide⟩

/-- C9: preprocessing `shim.h` is deterministic and depends only on the
value of `__APPLE__`: two environments that agree on `__APPLE__` yield
the identical effect list (same macro definition and same ordered
header list), whatever else they disagree on. -/
theorem c9_deterministic (env₁ env₂ : String → Bool)
    (h : env₁ "__APPLE__" = env₂ "__APPLE__") :
    preprocess env₁ = preprocess env₂ := by
  cases h₂ : env₂ "__APPLE__" with
  | true =>
      rw [preprocess_apple env₂ h₂, preprocess_apple env₁ (h.trans h₂)]
  | false =>
      rw [preprocess_other env₂ h₂, preprocess_other env₁ (h.trans h₂)]

theorem c9_deterministic_witness :
    ((fun _ : String => true) "__APPLE__" =
      (fun s : String => s = "__APPLE__" : String → Bool) "__APPLE__") ∧
    preprocess (fun _ : String => true) =
      preprocess (fun s : String => s = "__APPLE__" : String → Bool) :=
  ⟨by decide,
    c9_deterministic (fun _ : String => true)
      (fun s : String => s = "__APPLE__" : String → Bool) (by decide)⟩

/-- Preprocessing a translation unit that textually contains `shim.h`
twice in a row (the file carries no include guard, so a second
`#include` of it re-processes the whole file). -/
def preprocessTwice (env : String → Bool) : List Effect :=
  ppLines env (shim_h ++ shim_h) []

theorem preprocessTwice_eq (env : String → Bool) :
    preprocessTwice env = preprocess env ++ preprocess env := by
  cases h : env "__APPLE__" with
  | true =>
      rw [preprocess_apple env h]
      simp [preprocessTwice, shim_h, ppLines, h, appleEffects, appleIncludes]
  | false =>
      rw [preprocess_other env h]
      simp [preprocessTwice, shim_h, ppLines, h, otherEffects, otherIncludes]

/-- C10: inclusion of `shim.h` is idempotent at its own layer despite the
missing include guard: processing the file twice re-defines
`GLFW_INCLUDE_NONE` with an identical (empty) replacement list and
re-issues the same includes, so the set of macro definitions and the set
of included headers equal those of a single inclusion. -/
theorem c10_idempotent (env : String → Bool) :
    preprocessTwice env = preprocess env ++ preprocess env ∧
    definesFull (preprocessTwice env) =
      [("GLFW_INCLUDE_NONE", ""), ("GLFW_INCLUDE_NONE", "")] ∧
    (definesOf (preprocessTwice env)).toFinset =
      (definesOf (preprocess env)).toFinset ∧
    (includesOf (preprocessTwice env)).toFinset =
      (includesOf (preprocess env)).toFinset := by
  refine ⟨preprocessTwice_eq env, ?_⟩
  rw [preprocessTwice_eq env]
  cases h : env "__APPLE__" with
  | true =>
      rw [preprocess_apple env h]
      refine ⟨by decide, ?_, ?_⟩ <;> decide
  | false =>
      rw [preprocess_other env h]
      refine ⟨by decide, ?_, ?_⟩ <;> decide

/-- Whether a line counts as an effective line of code: every line that
is neither blank nor a comment. -/
def effectiveLine : CLine → Bool
  | CLine.comment _ => false
  | CLine.blank => false
  | _ => true

/-- The number of effective (non-blank, non-comment) lines of a file. -/
def effectiveLineCount (f : List CLine) : Nat :=
  (f.filter effectiveLine).length

/-- Modelled from the spec: the repository contains a second C header
shim that is not present under `src/`; the spec describes the pair only
as "near-identical", so the sibling is modelled as an identical copy of
`shim.h`. -/
def shim2_h : List CLine := shim_h

/-- C6 counterexample: `shim.h` has 11 effective lines, so the pair of
near-identical shims has 22 effective lines across both files, which is
not within the claimed 10-to-15 range. -/
theorem c6_line_count_counterexample :
    effectiveLineCount shim_h + effectiveLineCount shim2_h = 22 ∧
    ¬(10 ≤ effectiveLineCount shim_h + effectiveLineCount shim2_h ∧
      effectiveLineCount shim_h + effectiveLineCount shim2_h ≤ 15) := by
  decide

/-- C6 amended: the provided source is a pair of near-identical C header
shims; each has 11 effective (non-blank, non-comment) lines, about 22
effective lines across both files. -/
theorem c6_line_count_amended :
    shim2_h = shim_h ∧
    effectiveLineCount shim_h = 11 ∧
    effectiveLineCount shim_h + effectiveLineCount shim2_h = 22 := by
  decide

end Rendery
